import Mathlib

/-!
# Verification of the TeslaCam SEI telemetry engine

Shallow embedding of `src/lib/sei-parser.ts` (the telemetry extraction and
interpolation engine) and proofs about it.

Modelling conventions:
* A byte buffer (`Uint8Array`) is a `List Nat` whose entries are the bytes.
* JavaScript numbers used as byte offsets are modelled as `Nat` where the
  source keeps them non-negative, and as `Int` inside the protobuf decoder,
  where a crafted negative length-delimited skip can drive the offset below
  zero in the source.
* JavaScript 32-bit bitwise arithmetic (`|`, `<<`, `>>`, `&`) is modelled on
  `Nat` bit patterns below 2^32 with an explicit `% 2^32`, together with the
  signed reinterpretation `int32` for the places the source reads the value
  back as a number.
* Reading `data[i]` out of range yields `undefined` in the source, which the
  bitwise contexts coerce to 0; `byteI`/`byteN` return 0 there.
* `DataView.getUint32` throws a `RangeError` when the read overruns the
  view; `getU32?` returns `none` there and the NAL scanner propagates it as
  `Except.error`, matching the one place the source can actually throw.
* IEEE-754 values are decoded exactly into `ℚ`; the exponent-255 payloads
  (Infinity/NaN), which no claim touches, are mapped to 0.
* Loops whose progress depends on decoded data are written with an explicit
  fuel argument that strictly dominates every forward-progress execution of
  the source loop.
-/

set_option maxRecDepth 8000

/-- `data[i]` for a natural index, 0 when out of range (JS `undefined`
coerced by a bitwise operator). -/
def byteN (data : List Nat) (i : Nat) : Nat := data.getD i 0

/-- `data[i]` for a possibly negative index, 0 when out of range. -/
def byteI (data : List Nat) (i : Int) : Nat :=
  if 0 ≤ i then data.getD i.toNat 0 else 0

/-- Big-endian 32-bit read, as computed by `DataView.getUint32(pos)`. -/
def readU32 (data : List Nat) (pos : Nat) : Nat :=
  byteN data pos * 2 ^ 24 + byteN data (pos + 1) * 2 ^ 16 +
    byteN data (pos + 2) * 2 ^ 8 + byteN data (pos + 3)

/-- `DataView.getUint32(pos)` on a view of `data.length` bytes: throws
(`none`) when the 4-byte read overruns the view. -/
def getU32? (data : List Nat) (pos : Nat) : Option Nat :=
  if pos + 4 ≤ data.length then some (readU32 data pos) else none

/-- Reinterpret a 32-bit pattern as the signed number JavaScript bitwise
operators produce. -/
def int32 (p : Nat) : Int :=
  if p < 2 ^ 31 then (p : Int) else (p : Int) - 2 ^ 32

/-- `gearStateToString` from the source: mnemonic for the gear enum. -/
def gearStateToString (gear : Int) : String :=
  if gear = 0 then "P"
  else if gear = 1 then "D"
  else if gear = 2 then "R"
  else if gear = 3 then "N"
  else "-"

/-- `autopilotStateToString` from the source. -/
def autopilotStateToString (state : Int) : String :=
  if state = 0 then "Off"
  else if state = 1 then "FSD"
  else if state = 2 then "Autosteer"
  else if state = 3 then "TACC"
  else "Unknown"

/-- Loop of `stripEmulationPreventionBytes`: `zeroCount` counts consecutive
zero bytes already emitted; a `0x03` seen after two or more zeros is dropped
and the count resets. -/
def stripAux : Nat → List Nat → List Nat
  | _, [] => []
  | zeroCount, b :: rest =>
    if 2 ≤ zeroCount ∧ b = 3 then stripAux 0 rest
    else b :: stripAux (if b = 0 then zeroCount + 1 else 0) rest

/-- `stripEmulationPreventionBytes` from the source. -/
def stripEmulationPreventionBytes (data : List Nat) : List Nat :=
  stripAux 0 data

/-- `nal.slice(i + 1, -1)` : drop the first `i+1` bytes and the final byte. -/
def sliceToLast (nal : List Nat) (i : Nat) : List Nat :=
  ((nal.drop (i + 1)).dropLast)

/-- Scan loop of `extractProtoPayload`, starting at index 3: skip `0x42`
lead-in bytes, return the payload after a `0x69` marker, abort on anything
else.  Fuel bounds the scan (the source loop runs to `nal.length - 1`). -/
def eppLoop (nal : List Nat) : Nat → Nat → Option (List Nat)
  | 0, _ => none
  | fuel + 1, i =>
    if i < nal.length - 1 then
      let b := byteN nal i
      if b = 0x42 then eppLoop nal fuel (i + 1)
      else if b = 0x69 then
        if 2 < i then some (stripEmulationPreventionBytes (sliceToLast nal i))
        else none
      else none
    else none

/-- `extractProtoPayload` from the source. -/
def extractProtoPayload (nal : List Nat) : Option (List Nat) :=
  if nal.length < 2 then none
  else eppLoop nal (nal.length + 1) 3

/-- Type tag at `pos + 4` equals `'mdat'` (0x6d 0x64 0x61 0x74). -/
def isMdatAt (data : List Nat) (pos : Nat) : Bool :=
  byteN data (pos + 4) = 0x6d ∧ byteN data (pos + 5) = 0x64 ∧
    byteN data (pos + 6) = 0x61 ∧ byteN data (pos + 7) = 0x74

/-- Loop of `findMdat`.  The returned size is `atomSize - headerSize` as an
integer: the source performs this subtraction before validating
`atomSize < headerSize`, so a corrupt `mdat` can report a negative size. -/
def findMdatLoop (data : List Nat) : Nat → Nat → Option (Nat × Int)
  | 0, _ => none
  | fuel + 1, pos =>
    if pos < data.length - 8 then
      let size32 := readU32 data pos
      if size32 = 1 then
        if data.length < pos + 16 then none
        else
          let atomSize : Nat := readU32 data (pos + 8) * 2 ^ 32 + readU32 data (pos + 12)
          if isMdatAt data pos then some (pos + 16, (atomSize : Int) - 16)
          else if atomSize < 16 then none
          else findMdatLoop data fuel (pos + atomSize)
      else
        let atomSize : Nat := if size32 = 0 then data.length - pos else size32
        if isMdatAt data pos then some (pos + 8, (atomSize : Int) - 8)
        else if atomSize < 8 then none
        else findMdatLoop data fuel (pos + atomSize)
    else none

/-- `findMdat` from the source: offset and size of the `mdat` content. -/
def findMdat (data : List Nat) : Option (Nat × Int) :=
  findMdatLoop data (data.length + 1) 0

/-- Loop of `iterNals`, collecting the yielded NAL units in order.  The
4-byte length read goes through the `DataView` bounds check (`getU32?`); a
read past the buffer is the `RangeError` the source generator would throw,
propagated as `Except.error`.  Each iteration advances `pos` by at least 4,
so fuel `endPos + 1` dominates every run. -/
def iterNalsLoop (data : List Nat) (endPos : Nat) : Nat → Nat → Except Unit (List (List Nat))
  | 0, _ => .ok []
  | fuel + 1, pos =>
    if pos < endPos - 4 then
      match getU32? data pos with
      | none => .error ()
      | some nalSize =>
        let pos := pos + 4
        if nalSize < 2 ∨ endPos < pos + nalSize then
          iterNalsLoop data endPos fuel (pos + (nalSize - 4))
        else
          match iterNalsLoop data endPos fuel (pos + nalSize) with
          | .error e => .error e
          | .ok rest =>
            if byteN data pos &&& 0x1f = 6 ∧ byteN data (pos + 1) = 5 then
              .ok ((data.drop pos).take nalSize :: rest)
            else .ok rest
    else .ok []

/-- `iterNals` from the source: SEI NAL units (type 6, payload type 5) of
the region `[offset, offset+size)`, or the whole rest of the buffer when
`size ≤ 0`. -/
def iterNals (data : List Nat) (offset : Nat) (size : Int) : Except Unit (List (List Nat)) :=
  let endPos := if 0 < size then offset + size.toNat else data.length
  iterNalsLoop data endPos (endPos + 1) offset

/-- Loop of `decodeVarint`: `value` is the 32-bit pattern accumulated by the
JavaScript `value |= (byte & 0x7f) << shift` (a 32-bit operation whose shift
count is taken mod 32).  Keeps reading while the continuation bit is set and
bytes remain.  Fuel `data.length + 1` dominates: an in-range byte is consumed
per step, and an out-of-range read yields 0, which clears the continuation
bit immediately. -/
def decodeVarintLoop (data : List Nat) (offset : Int) :
    Nat → Nat → Nat → Nat → Nat × Nat
  | 0, bytesRead, _, value => (value, bytesRead)
  | fuel + 1, bytesRead, shift, value =>
    if offset + bytesRead < (data.length : Int) then
      let b := byteI data (offset + bytesRead)
      let value := value ||| ((b &&& 0x7f) <<< (shift % 32)) % 2 ^ 32
      if b &&& 0x80 = 0 then (value, bytesRead + 1)
      else decodeVarintLoop data offset fuel (bytesRead + 1) (shift + 7) value
    else (value, bytesRead)

/-- `decodeVarint` from the source: returns the accumulated 32-bit value
pattern and the number of bytes read. -/
def decodeVarint (data : List Nat) (offset : Int) : Nat × Nat :=
  decodeVarintLoop data offset (data.length + 1) 0 0 0

/-- Exact value of an IEEE-754 single-precision bit pattern.  Exponent 255
(Infinity/NaN) has no rational value and is mapped to 0; no claim in this
development evaluates such a payload. -/
def f32FromBits (b : Nat) : ℚ :=
  let s : Nat := b / 2 ^ 31 % 2
  let e : Nat := b / 2 ^ 23 % 2 ^ 8
  let f : Nat := b % 2 ^ 23
  let sgn : ℚ := if s = 1 then -1 else 1
  if e = 255 then 0
  else if e = 0 then sgn * f * (2 : ℚ) ^ (-(149 : Int))
  else sgn * (2 ^ 23 + f) * (2 : ℚ) ^ ((e : Int) - 150)

/-- Exact value of an IEEE-754 double-precision bit pattern; exponent 2047
(Infinity/NaN) is mapped to 0 as in `f32FromBits`. -/
def f64FromBits (b : Nat) : ℚ :=
  let s : Nat := b / 2 ^ 63 % 2
  let e : Nat := b / 2 ^ 52 % 2 ^ 11
  let f : Nat := b % 2 ^ 52
  let sgn : ℚ := if s = 1 then -1 else 1
  if e = 2047 then 0
  else if e = 0 then sgn * f * (2 : ℚ) ^ (-(1074 : Int))
  else sgn * (2 ^ 52 + f) * (2 : ℚ) ^ ((e : Int) - 1075)

/-- `decodeFloat` from the source: returns 0 when the 4 value bytes overrun
the buffer, otherwise the little-endian single-precision value. -/
def decodeFloat (data : List Nat) (offset : Int) : ℚ :=
  if (data.length : Int) < offset + 4 then 0
  else
    f32FromBits (byteI data offset + byteI data (offset + 1) * 2 ^ 8 +
      byteI data (offset + 2) * 2 ^ 16 + byteI data (offset + 3) * 2 ^ 24)

/-- `decodeDouble` from the source. -/
def decodeDouble (data : List Nat) (offset : Int) : ℚ :=
  if (data.length : Int) < offset + 8 then 0
  else
    f64FromBits (byteI data offset + byteI data (offset + 1) * 2 ^ 8 +
      byteI data (offset + 2) * 2 ^ 16 + byteI data (offset + 3) * 2 ^ 24 +
      byteI data (offset + 4) * 2 ^ 32 + byteI data (offset + 5) * 2 ^ 40 +
      byteI data (offset + 6) * 2 ^ 48 + byteI data (offset + 7) * 2 ^ 56)

/-- `SeiMetadata` from the source: every field optional, absent unless the
wire carried it.  Enum fields hold the raw decoded number, as the source's
`value as GearState` cast does. -/
structure SeiMetadata where
  version : Option Int := none
  gearState : Option Int := none
  frameSeqNo : Option Int := none
  vehicleSpeedMps : Option ℚ := none
  acceleratorPedalPosition : Option ℚ := none
  steeringWheelAngle : Option ℚ := none
  blinkerOnLeft : Option Bool := none
  blinkerOnRight : Option Bool := none
  brakeApplied : Option Bool := none
  autopilotState : Option Int := none
  latitudeDeg : Option ℚ := none
  longitudeDeg : Option ℚ := none
  headingDeg : Option ℚ := none
  linearAccelerationMps2X : Option ℚ := none
  linearAccelerationMps2Y : Option ℚ := none
  linearAccelerationMps2Z : Option ℚ := none
  timestamp : Option ℚ := none
deriving DecidableEq, Repr

/-- Loop of `decodeProtobuf`.  `offset` is an `Int`: the length-delimited
skip adds a decoded 32-bit value that JavaScript reads back signed, so a
crafted length can move the offset backwards.  Each iteration consumes at
least the tag byte while moving forward, so fuel `data.length + 1` dominates
every forward-progress execution; the source loop is not in general
terminating on adversarial negative-length skips, which no claim exercises. -/
def decodeProtobufLoop (data : List Nat) : Nat → Int → SeiMetadata → SeiMetadata
  | 0, _, result => result
  | fuel + 1, offset, result =>
    if offset < (data.length : Int) then
      let tagRead := decodeVarint data offset
      let offset := offset + tagRead.2
      if (data.length : Int) ≤ offset then result
      else
        let tag := int32 tagRead.1
        let fieldNumber := tag.fdiv 8
        let wireType := tag.emod 8
        if fieldNumber = 1 then
          if wireType = 0 then
            let r := decodeVarint data offset
            decodeProtobufLoop data fuel (offset + r.2)
              { result with version := some (int32 r.1) }
          else decodeProtobufLoop data fuel offset result
        else if fieldNumber = 2 then
          if wireType = 0 then
            let r := decodeVarint data offset
            decodeProtobufLoop data fuel (offset + r.2)
              { result with gearState := some (int32 r.1) }
          else decodeProtobufLoop data fuel offset result
        else if fieldNumber = 3 then
          if wireType = 0 then
            let r := decodeVarint data offset
            decodeProtobufLoop data fuel (offset + r.2)
              { result with frameSeqNo := some (int32 r.1) }
          else decodeProtobufLoop data fuel offset result
        else if fieldNumber = 4 then
          if wireType = 5 then
            decodeProtobufLoop data fuel (offset + 4)
              { result with vehicleSpeedMps := some (decodeFloat data offset) }
          else decodeProtobufLoop data fuel offset result
        else if fieldNumber = 5 then
          if wireType = 5 then
            decodeProtobufLoop data fuel (offset + 4)
              { result with acceleratorPedalPosition := some (decodeFloat data offset) }
          else decodeProtobufLoop data fuel offset result
        else if fieldNumber = 6 then
          if wireType = 5 then
            decodeProtobufLoop data fuel (offset + 4)
              { result with steeringWheelAngle := some (decodeFloat data offset) }
          else decodeProtobufLoop data fuel offset result
        else if fieldNumber = 7 then
          if wireType = 0 then
            let r := decodeVarint data offset
            decodeProtobufLoop data fuel (offset + r.2)
              { result with blinkerOnLeft := some (decide (int32 r.1 ≠ 0)) }
          else decodeProtobufLoop data fuel offset result
        else if fieldNumber = 8 then
          if wireType = 0 then
            let r := decodeVarint data offset
            decodeProtobufLoop data fuel (offset + r.2)
              { result with blinkerOnRight := some (decide (int32 r.1 ≠ 0)) }
          else decodeProtobufLoop data fuel offset result
        else if fieldNumber = 9 then
          if wireType = 0 then
            let r := decodeVarint data offset
            decodeProtobufLoop data fuel (offset + r.2)
              { result with brakeApplied := some (decide (int32 r.1 ≠ 0)) }
          else decodeProtobufLoop data fuel offset result
        else if fieldNumber = 10 then
          if wireType = 0 then
            let r := decodeVarint data offset
            decodeProtobufLoop data fuel (offset + r.2)
              { result with autopilotState := some (int32 r.1) }
          else decodeProtobufLoop data fuel offset result
        else if fieldNumber = 11 then
          if wireType = 1 then
            decodeProtobufLoop data fuel (offset + 8)
              { result with latitudeDeg := some (decodeDouble data offset) }
          else decodeProtobufLoop data fuel offset result
        else if fieldNumber = 12 then
          if wireType = 1 then
            decodeProtobufLoop data fuel (offset + 8)
              { result with longitudeDeg := some (decodeDouble data offset) }
          else decodeProtobufLoop data fuel offset result
        else if fieldNumber = 13 then
          if wireType = 1 then
            decodeProtobufLoop data fuel (offset + 8)
              { result with headingDeg := some (decodeDouble data offset) }
          else decodeProtobufLoop data fuel offset result
        else if fieldNumber = 14 then
          if wireType = 1 then
            decodeProtobufLoop data fuel (offset + 8)
              { result with linearAccelerationMps2X := some (decodeDouble data offset) }
          else decodeProtobufLoop data fuel offset result
        else if fieldNumber = 15 then
          if wireType = 1 then
            decodeProtobufLoop data fuel (offset + 8)
              { result with linearAccelerationMps2Y := some (decodeDouble data offset) }
          else decodeProtobufLoop data fuel offset result
        else if fieldNumber = 16 then
          if wireType = 1 then
            decodeProtobufLoop data fuel (offset + 8)
              { result with linearAccelerationMps2Z := some (decodeDouble data offset) }
          else decodeProtobufLoop data fuel offset result
        else
          if wireType = 0 then
            let r := decodeVarint data offset
            decodeProtobufLoop data fuel (offset + r.2) result
          else if wireType = 1 then
            decodeProtobufLoop data fuel (offset + 8) result
          else if wireType = 2 then
            let r := decodeVarint data offset
            decodeProtobufLoop data fuel (offset + r.2 + int32 r.1) result
          else if wireType = 5 then
            decodeProtobufLoop data fuel (offset + 4) result
          else decodeProtobufLoop data fuel offset result
    else result

/-- `decodeProtobuf` from the source. -/
def decodeProtobuf (data : List Nat) : SeiMetadata :=
  decodeProtobufLoop data (data.length + 1) 0 {}

/-- `SeiFrame` from the source. -/
structure SeiFrame where
  frameNumber : Nat
  timestamp : ℚ
  metadata : SeiMetadata
deriving DecidableEq, Repr

/-- The frame-sequencing loop of `extractSeiFromFile`: decode each yielded
NAL's payload, keep records with a defined version, and assign
`frameNumber := n` (post-increment) and `timestamp := (n+1)/36`. -/
def framesLoop : Nat → List (List Nat) → List SeiFrame
  | _, [] => []
  | n, nal :: rest =>
    match extractProtoPayload nal with
    | none => framesLoop n rest
    | some payload =>
      let metadata := decodeProtobuf payload
      if metadata.version.isSome then
        ⟨n, ((n : ℚ) + 1) / 36, metadata⟩ :: framesLoop (n + 1) rest
      else framesLoop n rest

/-- `extractSeiFromFile` from the source.  An `Except.error` is the
`RangeError` the NAL scan can raise (the source's `try`/`catch` only guards
`decodeProtobuf`, which cannot throw for the inputs the claims exercise). -/
def extractSeiFromFile (data : List Nat) : Except Unit (List SeiFrame) :=
  match findMdat data with
  | none => .ok []
  | some (offset, size) =>
    match iterNals data offset size with
    | .error e => .error e
    | .ok nals => .ok (framesLoop 0 nals)

/-- The bracket-search loop of `interpolateSeiData`: walk the frames in
order, remembering the last frame with `timestamp ≤ t`; stop at the first
frame with `timestamp > t`. -/
def findBrackets : List SeiFrame → ℚ → Option SeiFrame → Option SeiFrame × Option SeiFrame
  | [], _, before => (before, none)
  | f :: rest, t, before =>
    if f.timestamp ≤ t then findBrackets rest t (some f)
    else (before, some f)

/-- The `lerp` helper of `interpolateSeiData`: interpolate when both sides
are present, otherwise whichever side is present. -/
def lerp (t : ℚ) : Option ℚ → Option ℚ → Option ℚ
  | some a, some b => some (a + (b - a) * t)
  | some a, none => some a
  | none, some b => some b
  | none, none => none

/-- `interpolateSeiData` from the source. -/
def interpolateSeiData (frames : List SeiFrame) (currentTime : ℚ) : Option SeiMetadata :=
  match frames with
  | [] => none
  | [f] => some f.metadata
  | f0 :: f1 :: rest =>
    match findBrackets (f0 :: f1 :: rest) currentTime none with
    | (none, _) => some f0.metadata
    | (some _, none) => some ((f0 :: f1 :: rest).getLastD f0).metadata
    | (some bf, some af) =>
      if af.timestamp - bf.timestamp = 0 then some bf.metadata
      else
        let t := (currentTime - bf.timestamp) / (af.timestamp - bf.timestamp)
        some
          { version := bf.metadata.version
            gearState := bf.metadata.gearState
            frameSeqNo := bf.metadata.frameSeqNo
            vehicleSpeedMps := lerp t bf.metadata.vehicleSpeedMps af.metadata.vehicleSpeedMps
            acceleratorPedalPosition :=
              lerp t bf.metadata.acceleratorPedalPosition af.metadata.acceleratorPedalPosition
            steeringWheelAngle :=
              lerp t bf.metadata.steeringWheelAngle af.metadata.steeringWheelAngle
            blinkerOnLeft := bf.metadata.blinkerOnLeft
            blinkerOnRight := bf.metadata.blinkerOnRight
            brakeApplied := bf.metadata.brakeApplied
            autopilotState := bf.metadata.autopilotState
            latitudeDeg := lerp t bf.metadata.latitudeDeg af.metadata.latitudeDeg
            longitudeDeg := lerp t bf.metadata.longitudeDeg af.metadata.longitudeDeg
            headingDeg := lerp t bf.metadata.headingDeg af.metadata.headingDeg
            linearAccelerationMps2X :=
              lerp t bf.metadata.linearAccelerationMps2X af.metadata.linearAccelerationMps2X
            linearAccelerationMps2Y :=
              lerp t bf.metadata.linearAccelerationMps2Y af.metadata.linearAccelerationMps2Y
            linearAccelerationMps2Z :=
              lerp t bf.metadata.linearAccelerationMps2Z af.metadata.linearAccelerationMps2Z }

/-- Left-pad a digit string with zeros to width `w`. -/
def padZeros (s : String) (w : Nat) : String :=
  String.mk (List.replicate (w - s.length) '0') ++ s

/-- Model of `Number.prototype.toFixed(d)`: decimal rounding to `d` places
(ties away from the rounded-magnitude's floor, i.e. half-up on the
magnitude).  Exact binary64 representation noise and the `-0` corner are
outside the model; no claim depends on the digits of a present value. -/
def toFixedQ (q : ℚ) (d : Nat) : String :=
  let sign := if q < 0 then "-" else ""
  let n : Nat := (Int.floor (|q| * 10 ^ d + 1 / 2)).toNat
  if d = 0 then sign ++ toString (n : Nat)
  else sign ++ toString (n / 10 ^ d) ++ "." ++ padZeros (toString (n % 10 ^ d)) d

/-- Render an optional number as `String(x)` or the empty string (`?? ''`). -/
def optIntStr : Option Int → String
  | none => ""
  | some v => toString v

/-- Render an optional rational with `toFixed` or the empty string. -/
def optFixedStr (d : Nat) : Option ℚ → String
  | none => ""
  | some q => toFixedQ q d

/-- Render an optional boolean as JavaScript's `String(b)` or the empty
string. -/
def optBoolStr : Option Bool → String
  | none => ""
  | some b => if b then "true" else "false"

/-- The header row of `seiFramesToCsv`. -/
def csvHeaders : List String :=
  ["frame_number", "timestamp", "version", "gear_state", "vehicle_speed_mps",
   "accelerator_pedal_position", "steering_wheel_angle", "blinker_on_left",
   "blinker_on_right", "brake_applied", "autopilot_state", "latitude_deg",
   "longitude_deg", "heading_deg", "linear_acceleration_x",
   "linear_acceleration_y", "linear_acceleration_z"]

/-- One data row of `seiFramesToCsv`, in column order. -/
def csvRow (frame : SeiFrame) : List String :=
  [toString frame.frameNumber,
   toFixedQ frame.timestamp 3,
   optIntStr frame.metadata.version,
   gearStateToString (frame.metadata.gearState.getD 0),
   optFixedStr 2 frame.metadata.vehicleSpeedMps,
   optFixedStr 2 frame.metadata.acceleratorPedalPosition,
   optFixedStr 2 frame.metadata.steeringWheelAngle,
   optBoolStr frame.metadata.blinkerOnLeft,
   optBoolStr frame.metadata.blinkerOnRight,
   optBoolStr frame.metadata.brakeApplied,
   autopilotStateToString (frame.metadata.autopilotState.getD 0),
   optFixedStr 6 frame.metadata.latitudeDeg,
   optFixedStr 6 frame.metadata.longitudeDeg,
   optFixedStr 2 frame.metadata.headingDeg,
   optFixedStr 4 frame.metadata.linearAccelerationMps2X,
   optFixedStr 4 frame.metadata.linearAccelerationMps2Y,
   optFixedStr 4 frame.metadata.linearAccelerationMps2Z]

/-- `seiFramesToCsv` from the source. -/
def seiFramesToCsv (frames : List SeiFrame) : String :=
  String.intercalate "\n"
    (String.intercalate "," csvHeaders ::
      frames.map (fun f => String.intercalate "," (csvRow f)))

/-! ## Specification-side definitions used to state the claims -/

/-- A byte sequence contains the escape pattern `0x00 0x00 0x03` (a `0x03`
immediately preceded by at least two zero bytes). -/
def hasEP : List Nat → Bool
  | x :: y :: z :: rest =>
    (decide (x = 0) && decide (y = 0) && decide (z = 3)) || hasEP (y :: z :: rest)
  | _ => false

/-- Canonical protobuf varint encoding: 7 value bits per byte, little-end
first, continuation bit on every byte but the last. -/
def varintEncode (v : Nat) : List Nat :=
  if h : v < 128 then [v]
  else (v % 128 + 128) :: varintEncode (v / 128)
decreasing_by exact Nat.div_lt_self (by omega) (by omega)

/-- A wellformed top-level box sequence whose first media-data box starts at
`q` with content `[off, off+sz)`: `MdatSpec l p q off sz` says that from
position `p` the buffer parses as boxes — using the 32-bit size, the 64-bit
extended size when the size field is 1, or to-end-of-buffer when it is 0 —
that every box before `q` is not an `mdat`, and that the box at `q` is one. -/
inductive MdatSpec (l : List Nat) : Nat → Nat → Nat → Nat → Prop
  | mdat_normal (p sz off csz : Nat) :
      readU32 l p = sz → 8 ≤ sz → p + sz ≤ l.length → isMdatAt l p = true →
      off = p + 8 → csz = sz - 8 → MdatSpec l p p off csz
  | mdat_ext (p sz off csz : Nat) :
      readU32 l p = 1 → readU32 l (p + 8) * 2 ^ 32 + readU32 l (p + 12) = sz →
      16 ≤ sz → p + sz ≤ l.length → isMdatAt l p = true →
      off = p + 16 → csz = sz - 16 → MdatSpec l p p off csz
  | mdat_final (p off csz : Nat) :
      readU32 l p = 0 → p + 8 ≤ l.length → isMdatAt l p = true →
      off = p + 8 → csz = l.length - (p + 8) → MdatSpec l p p off csz
  | skip_normal (p sz q off csz : Nat) :
      readU32 l p = sz → 8 ≤ sz → sz ≠ 1 → p + sz ≤ l.length →
      isMdatAt l p = false → MdatSpec l (p + sz) q off csz →
      MdatSpec l p q off csz
  | skip_ext (p sz q off csz : Nat) :
      readU32 l p = 1 → readU32 l (p + 8) * 2 ^ 32 + readU32 l (p + 12) = sz →
      16 ≤ sz → p + sz ≤ l.length →
      isMdatAt l p = false → MdatSpec l (p + sz) q off csz →
      MdatSpec l p q off csz

/-- The discrete telemetry fields of two records agree. -/
def discreteEq (m a : SeiMetadata) : Prop :=
  m.version = a.version ∧ m.gearState = a.gearState ∧
    m.frameSeqNo = a.frameSeqNo ∧ m.blinkerOnLeft = a.blinkerOnLeft ∧
    m.blinkerOnRight = a.blinkerOnRight ∧ m.brakeApplied = a.brakeApplied ∧
    m.autopilotState = a.autopilotState

/-- Every continuous field present in `a` is present with the same value in
`m`. -/
def presentAgree (m a : SeiMetadata) : Prop :=
  (∀ x, a.vehicleSpeedMps = some x → m.vehicleSpeedMps = some x) ∧
  (∀ x, a.acceleratorPedalPosition = some x → m.acceleratorPedalPosition = some x) ∧
  (∀ x, a.steeringWheelAngle = some x → m.steeringWheelAngle = some x) ∧
  (∀ x, a.latitudeDeg = some x → m.latitudeDeg = some x) ∧
  (∀ x, a.longitudeDeg = some x → m.longitudeDeg = some x) ∧
  (∀ x, a.headingDeg = some x → m.headingDeg = some x) ∧
  (∀ x, a.linearAccelerationMps2X = some x → m.linearAccelerationMps2X = some x) ∧
  (∀ x, a.linearAccelerationMps2Y = some x → m.linearAccelerationMps2Y = some x) ∧
  (∀ x, a.linearAccelerationMps2Z = some x → m.linearAccelerationMps2Z = some x)

/-! ## Helper lemmas -/

theorem byteI_natCast (data : List Nat) (n : Nat) :
    byteI data (n : Int) = data.getD n 0 := by
  simp [byteI]

theorem int32_of_lt {p : Nat} (h : p < 2 ^ 31) : int32 p = p := by
  simp only [int32, if_pos h]

theorem and_127_eq_mod (b : Nat) : b &&& 127 = b % 128 := by
  have h := Nat.and_pow_two_sub_one_eq_mod b 7
  norm_num at h
  exact h

theorem and_128_eq (b : Nat) : b &&& 128 = b / 128 % 2 * 128 := by
  have h := Nat.and_two_pow b 7
  rw [Nat.toNat_testBit] at h
  norm_num at h
  exact h

theorem lor_eq_add_mul_two_pow (a v s : Nat) (h : a < 2 ^ s) :
    a ||| v * 2 ^ s = a + v * 2 ^ s := by
  induction s generalizing a v with
  | zero =>
    interval_cases a
    simp
  | succ s ih =>
    have hy : v * 2 ^ (s + 1) = 2 * (v * 2 ^ s) := by ring
    have hdiv : (a ||| v * 2 ^ (s + 1)) / 2 = a / 2 + v * 2 ^ s := by
      rw [Nat.or_div_two, hy, Nat.mul_div_cancel_left _ (by omega : 0 < 2)]
      exact ih (a / 2) v (by omega)
    have hb2 : v * 2 ^ (s + 1) % 2 = 0 := by
      rw [hy]; omega
    have hmod : (a ||| v * 2 ^ (s + 1)) % 2 = a % 2 := by
      rcases Nat.mod_two_eq_zero_or_one a with h0 | h1
      · rw [h0]
        by_contra hne
        have h1 : (a ||| v * 2 ^ (s + 1)) % 2 = 1 := by omega
        rcases Nat.or_mod_two_eq_one.mp h1 with hc | hc
        · omega
        · omega
      · rw [h1]
        exact Nat.or_mod_two_eq_one.mpr (Or.inl h1)
    have hx := Nat.div_add_mod (a ||| v * 2 ^ (s + 1)) 2
    have ha := Nat.div_add_mod a 2
    omega

theorem dvl_stop (data : List Nat) (offset : Int) (fuel bytesRead shift value : Nat)
    (h : offset + bytesRead < (data.length : Int))
    (hb : byteI data (offset + bytesRead) &&& 128 = 0) :
    decodeVarintLoop data offset (fuel + 1) bytesRead shift value =
      (value ||| ((byteI data (offset + bytesRead) &&& 127) <<< (shift % 32)) % 2 ^ 32,
        bytesRead + 1) := by
  rw [decodeVarintLoop]
  simp [h, hb]

theorem dvl_cont (data : List Nat) (offset : Int) (fuel bytesRead shift value : Nat)
    (h : offset + bytesRead < (data.length : Int))
    (hb : ¬ byteI data (offset + bytesRead) &&& 128 = 0) :
    decodeVarintLoop data offset (fuel + 1) bytesRead shift value =
      decodeVarintLoop data offset fuel (bytesRead + 1) (shift + 7)
        (value ||| ((byteI data (offset + bytesRead) &&& 127) <<< (shift % 32)) % 2 ^ 32) := by
  rw [decodeVarintLoop]
  simp [h, hb]

theorem dvl_end (data : List Nat) (offset : Int) (fuel bytesRead shift value : Nat)
    (h : ¬ offset + bytesRead < (data.length : Int)) :
    decodeVarintLoop data offset (fuel + 1) bytesRead shift value = (value, bytesRead) := by
  rw [decodeVarintLoop]
  simp [h]

theorem dpl_end (data : List Nat) (fuel : Nat) (offset : Int) (r : SeiMetadata)
    (h : ¬ offset < (data.length : Int)) :
    decodeProtobufLoop data (fuel + 1) offset r = r := by
  rw [decodeProtobufLoop]
  simp [h]

theorem dpl_speed_trunc (data : List Nat) (fuel : Nat) (offset : Int) (r : SeiMetadata)
    (h0 : offset < (data.length : Int))
    (hv : decodeVarint data offset = (37, 1))
    (h1 : ¬ ((data.length : Int) ≤ offset + 1))
    (hf : (data.length : Int) < offset + 1 + 4) :
    decodeProtobufLoop data (fuel + 1) offset r =
      decodeProtobufLoop data fuel (offset + 1 + 4) { r with vehicleSpeedMps := some 0 } := by
  rw [decodeProtobufLoop]
  rw [if_pos h0]
  simp only [hv]
  push_cast
  rw [if_neg h1]
  have h37 : int32 37 = 37 := by decide
  have hfd : (37 : Int).fdiv 8 = 4 := by decide
  have hem : (37 : Int).emod 8 = 5 := by decide
  simp only [h37, hfd, hem]
  norm_num
  rw [decodeFloat, if_pos hf]

theorem getD_of_drop_eq {data : List Nat} {n b : Nat} {rest : List Nat}
    (h : data.drop n = b :: rest) : data.getD n 0 = b := by
  induction data generalizing n with
  | nil => simp at h
  | cons x xs ih =>
    cases n with
    | zero =>
      simp only [List.drop_zero] at h
      rw [List.cons.injEq] at h
      simp [h.1]
    | succ n =>
      simp only [List.drop_succ_cons] at h
      simpa using ih h

theorem varintEncode_length_pos (v : Nat) : 1 ≤ (varintEncode v).length := by
  rw [varintEncode]
  split <;> simp

theorem dvl_on_encoding :
    ∀ (v : Nat) (data : List Nat) (offset bytesRead shift value fuel : Nat),
      v < 2 ^ (31 - shift) → shift ≤ 28 → shift % 7 = 0 → value < 2 ^ shift →
      data.drop (offset + bytesRead) = varintEncode v →
      offset + bytesRead + (varintEncode v).length = data.length →
      (varintEncode v).length ≤ fuel →
      decodeVarintLoop data offset fuel bytesRead shift value =
        (value + v * 2 ^ shift, bytesRead + (varintEncode v).length) := by
  intro v
  induction v using Nat.strong_induction_on with
  | _ v ih =>
    intro data offset bytesRead shift value fuel hv hs hs7 hval hdrop hlen hfuel
    have hsm : shift % 32 = shift := Nat.mod_eq_of_lt (by omega)
    by_cases h128 : v < 128
    · have henc : varintEncode v = [v] := by rw [varintEncode, dif_pos h128]
      rw [henc] at hdrop hlen hfuel ⊢
      simp only [List.length_cons, List.length_nil] at hlen hfuel ⊢
      rcases fuel with _ | f
      · omega
      have hbyte : byteI data ((offset : Int) + (bytesRead : Nat)) = v := by
        have hcast : ((offset : Int) + (bytesRead : Nat)) = ((offset + bytesRead : Nat) : Int) := by
          push_cast; ring
        rw [hcast, byteI_natCast]
        exact getD_of_drop_eq hdrop
      rw [dvl_stop data offset f bytesRead shift value
        (by push_cast; omega) (by rw [hbyte, and_128_eq]; omega)]
      rw [hbyte, and_127_eq_mod, Nat.mod_eq_of_lt h128, hsm, Nat.shiftLeft_eq]
      have hlt : v * 2 ^ shift < 2 ^ 32 := by
        calc v * 2 ^ shift < 2 ^ (31 - shift) * 2 ^ shift :=
              (Nat.mul_lt_mul_right (Nat.two_pow_pos shift)).mpr hv
          _ = 2 ^ 31 := by rw [← pow_add]; congr 1; omega
          _ < 2 ^ 32 := by norm_num
      rw [Nat.mod_eq_of_lt hlt, lor_eq_add_mul_two_pow _ _ _ hval]
    · have henc : varintEncode v = (v % 128 + 128) :: varintEncode (v / 128) := by
        rw [varintEncode, dif_neg h128]
      rw [henc] at hdrop hlen hfuel ⊢
      simp only [List.length_cons] at hlen hfuel ⊢
      have hshift21 : shift ≤ 21 := by
        have h7 : (2 : Nat) ^ 7 < 2 ^ (31 - shift) := lt_of_le_of_lt (by omega) hv
        have := (Nat.pow_lt_pow_iff_right (by omega : 1 < 2)).mp h7
        omega
      rcases fuel with _ | f
      · omega
      have hbyte : byteI data ((offset : Int) + (bytesRead : Nat)) = v % 128 + 128 := by
        have hcast : ((offset : Int) + (bytesRead : Nat)) = ((offset + bytesRead : Nat) : Int) := by
          push_cast; ring
        rw [hcast, byteI_natCast]
        exact getD_of_drop_eq hdrop
      rw [dvl_cont data offset f bytesRead shift value
        (by push_cast; omega) (by rw [hbyte, and_128_eq]; omega)]
      have hval' : value ||| ((byteI data ((offset : Int) + (bytesRead : Nat)) &&& 127) <<<
          (shift % 32)) % 2 ^ 32 = value + v % 128 * 2 ^ shift := by
        rw [hbyte, and_127_eq_mod, hsm, Nat.shiftLeft_eq]
        have heq : (v % 128 + 128) % 128 = v % 128 := by omega
        rw [heq]
        have hlt : v % 128 * 2 ^ shift < 2 ^ 32 := by
          calc v % 128 * 2 ^ shift < 128 * 2 ^ shift :=
                (Nat.mul_lt_mul_right (Nat.two_pow_pos shift)).mpr (by omega)
            _ ≤ 128 * 2 ^ 21 := by
                have := Nat.pow_le_pow_right (by omega : 0 < 2) hshift21
                omega
            _ < 2 ^ 32 := by norm_num
        rw [Nat.mod_eq_of_lt hlt, lor_eq_add_mul_two_pow _ _ _ hval]
      rw [hval']
      have hdrop' : data.drop (offset + (bytesRead + 1)) = varintEncode (v / 128) := by
        have h1 : data.drop (offset + (bytesRead + 1)) = (data.drop (offset + bytesRead)).drop 1 := by
          rw [List.drop_drop]
          exact congrArg (fun n => List.drop n data)
            (by omega : offset + (bytesRead + 1) = offset + bytesRead + 1)
        rw [h1, hdrop]
        rfl
      have hrec := ih (v / 128) (Nat.div_lt_self (by omega) (by omega))
        data offset (bytesRead + 1) (shift + 7) (value + v % 128 * 2 ^ shift) f
        (by
          have hpow : (2 : Nat) ^ (31 - shift) = 2 ^ (31 - (shift + 7)) * 2 ^ 7 := by
            rw [← pow_add]
            congr 1
            omega
          rw [hpow] at hv
          refine (Nat.div_lt_iff_lt_mul (by omega : 0 < 128)).mpr ?_
          calc v < 2 ^ (31 - (shift + 7)) * 2 ^ 7 := hv
            _ = 2 ^ (31 - (shift + 7)) * 128 := by norm_num)
        (by omega) (by omega)
        (by
          have hmul : v % 128 * 2 ^ shift ≤ 127 * 2 ^ shift :=
            Nat.mul_le_mul_right _ (by omega)
          have hpow : (2 : Nat) ^ (shift + 7) = 128 * 2 ^ shift := by
            rw [pow_add]; ring
          have := Nat.two_pow_pos shift
          omega)
        hdrop' (by omega) (by omega)
      rw [hrec]
      have hsplit : v % 128 + 128 * (v / 128) = v := Nat.mod_add_div v 128
      have hpow : (2 : Nat) ^ (shift + 7) = 2 ^ shift * 128 := by
        rw [pow_add]; ring
      rw [Prod.mk.injEq]
      constructor
      · rw [hpow]
        calc value + v % 128 * 2 ^ shift + v / 128 * (2 ^ shift * 128)
            = value + (v % 128 + 128 * (v / 128)) * 2 ^ shift := by ring
          _ = value + v * 2 ^ shift := by rw [hsplit]
      · omega

theorem decodeVarint_cons_encode (t v : Nat) (hv : v < 2 ^ 31) :
    decodeVarint (t :: varintEncode v) 1 = (v, (varintEncode v).length) := by
  rw [decodeVarint]
  have h := dvl_on_encoding v (t :: varintEncode v) 1 0 0 0 ((t :: varintEncode v).length + 1)
    (by simpa using hv) (by omega) (by omega) (by norm_num)
    (by simp) (by simp; omega) (by simp; omega)
  simpa using h

theorem dpl_frameseq (data : List Nat) (fuel : Nat) (offset : Int) (r : SeiMetadata)
    (v n : Nat)
    (h0 : offset < (data.length : Int))
    (hv : decodeVarint data offset = (24, 1))
    (h1 : ¬ ((data.length : Int) ≤ offset + 1))
    (hr : decodeVarint data (offset + 1) = (v, n)) :
    decodeProtobufLoop data (fuel + 1) offset r =
      decodeProtobufLoop data fuel (offset + 1 + n) { r with frameSeqNo := some (int32 v) } := by
  rw [decodeProtobufLoop]
  rw [if_pos h0]
  simp only [hv]
  push_cast
  rw [if_neg h1]
  have h24 : int32 24 = 24 := by decide
  have hfd : (24 : Int).fdiv 8 = 3 := by decide
  have hem : (24 : Int).emod 8 = 0 := by decide
  simp only [h24, hfd, hem]
  norm_num
  simp only [hr]

theorem hasEP_tail {x : Nat} {l : List Nat} (h : hasEP (x :: l) = false) :
    hasEP l = false := by
  match l with
  | [] => rfl
  | [_] => rfl
  | y :: z :: rest =>
    rw [hasEP] at h
    exact (Bool.or_eq_false_iff.mp h).2

theorem hasEP_append_left {ys l : List Nat} (h : hasEP (ys ++ l) = false) :
    hasEP l = false := by
  induction ys with
  | nil => exact h
  | cons y ys ih => exact ih (hasEP_tail h)

theorem stripAux_of_not_hasEP :
    ∀ (l : List Nat) (zc : Nat),
      hasEP (List.replicate (min zc 2) 0 ++ l) = false → stripAux zc l = l := by
  intro l
  induction l with
  | nil => intro zc _; rfl
  | cons b rest ih =>
    intro zc h
    by_cases hb : 2 ≤ zc ∧ b = 3
    · exfalso
      obtain ⟨hzc, rfl⟩ := hb
      have hmin : min zc 2 = 2 := by omega
      rw [hmin] at h
      simp [List.replicate, hasEP] at h
    · rw [stripAux, if_neg hb]
      congr 1
      by_cases hb0 : b = 0
      · subst hb0
        rw [if_pos rfl]
        apply ih
        rcases Nat.lt_or_ge zc 2 with hlt | hge
        · interval_cases zc
          · simpa using h
          · simpa using h
        · have h1 : min zc 2 = 2 := by omega
          have h2 : min (zc + 1) 2 = 2 := by omega
          rw [h2] at *
          rw [h1] at h
          simp only [List.replicate, List.cons_append, List.nil_append] at h ⊢
          exact hasEP_tail h
      · rw [if_neg hb0]
        have h0 : hasEP (b :: rest) = false := hasEP_append_left h
        exact ih 0 (by simpa using hasEP_tail h0)

/-! ## C2 : emulation-prevention stripping -/

/-- C2, counterexample: stripping is not idempotent and one pass can leave a
`0x00 0x00 0x03` pattern.  On `[0,0,3,3]` one pass yields `[0,0,3]` (the
stripped escape resets the zero counter, so the second `0x03` survives
behind the two already-emitted zeros), and a second pass strips again. -/
theorem c2_strip_not_idempotent_cex :
    stripEmulationPreventionBytes [0, 0, 3, 3] = [0, 0, 3] ∧
      hasEP (stripEmulationPreventionBytes [0, 0, 3, 3]) = true ∧
      stripEmulationPreventionBytes (stripEmulationPreventionBytes [0, 0, 3, 3]) ≠
        stripEmulationPreventionBytes [0, 0, 3, 3] := by
  refine ⟨by decide, by decide, by decide⟩

/-- C2, amended: `stripEmulationPreventionBytes` is the identity exactly on
byte sequences with no `0x00 0x00 0x03` pattern; on such sequences it is in
particular idempotent.  (Full idempotence fails: an output may itself
contain the pattern, as the counterexample shows.) -/
theorem c2_strip_identity_on_clean (l : List Nat) (h : hasEP l = false) :
    stripEmulationPreventionBytes l = l := by
  unfold stripEmulationPreventionBytes
  exact stripAux_of_not_hasEP l 0 (by simpa using h)

/-- Witness for C2 at a concrete pattern-free input. -/
theorem c2_strip_identity_witness :
    hasEP [0, 0, 1, 3] = false ∧
      stripEmulationPreventionBytes [0, 0, 1, 3] = [0, 0, 1, 3] :=
  ⟨by decide, c2_strip_identity_on_clean [0, 0, 1, 3] (by decide)⟩

/-! ## C1 : truncated trailing protobuf field -/

/-- C1, counterexample: payload `[0x25, 0, 0, 0]` is a field-4 (speed,
wire-type 5) tag whose four value bytes are truncated to three; the claim
says the field must stay absent, but the decoder emits it as present with
value 0 (`decodeFloat`'s bounds check returns 0). -/
theorem c1_truncated_field_cex :
    (decodeProtobuf [0x25, 0, 0, 0]).vehicleSpeedMps = some 0 ∧
      (decodeProtobuf [0x25, 0, 0, 0]).vehicleSpeedMps ≠ none := by
  refine ⟨by decide, by decide⟩

/-- C1, amended: decoding stops at end of buffer without error, and a field
whose tag is the last byte of the payload is left absent; but a trailing
32-bit (float) field whose value bytes are truncated is emitted as present
with value 0 rather than left absent. -/
theorem c1_truncated_field_amended :
    (∀ tail : List Nat, 1 ≤ tail.length → tail.length ≤ 3 →
        (decodeProtobuf (0x25 :: tail)).vehicleSpeedMps = some 0) ∧
      (decodeProtobuf [0x25]).vehicleSpeedMps = none := by
  constructor
  · intro tail h1 h3
    have hb : byteI (0x25 :: tail) (0 + ((0 : Nat) : Int)) &&& 128 = 0 := by
      norm_num [byteI]
      decide
    have hv : decodeVarint (0x25 :: tail) 0 = (37, 1) := by
      rw [decodeVarint]
      rw [dvl_stop (0x25 :: tail) 0 (0x25 :: tail).length 0 0 0
        (by simp only [List.length_cons]; push_cast; omega) hb]
      norm_num [byteI]
      decide
    rw [decodeProtobuf]
    rw [dpl_speed_trunc (0x25 :: tail) (0x25 :: tail).length 0 {} (by
        simp only [List.length_cons]; push_cast; omega)
      hv (by simp only [List.length_cons]; push_cast; omega)
      (by simp only [List.length_cons]; push_cast; omega)]
    simp only [List.length_cons]
    rw [dpl_end (0x25 :: tail) tail.length (0 + 1 + 4) _ (by
        simp only [List.length_cons]; push_cast; omega)]
  · decide

/-- Witness for C1 at a concrete truncated payload. -/
theorem c1_truncated_field_witness :
    (decodeProtobuf [0x25, 9, 9]).vehicleSpeedMps = some 0 :=
  c1_truncated_field_amended.1 [9, 9] (by decide) (by decide)

/-! ## C7 : 64-bit frame sequence number -/

/-- C7, counterexample: the varint for 2^31 (field 3) decodes through the
32-bit accumulator as the sign-reinterpreted value −2^31, so `frameSeqNo`
does not equal the encoded value. -/
theorem c7_frameseq_cex :
    varintEncode (2 ^ 31) = [0x80, 0x80, 0x80, 0x80, 0x08] ∧
      (decodeProtobuf (0x18 :: varintEncode (2 ^ 31))).frameSeqNo = some (-2147483648) ∧
      (decodeProtobuf (0x18 :: varintEncode (2 ^ 31))).frameSeqNo ≠
        some ((2 ^ 31 : Nat) : Int) := by
  have h1 : varintEncode (2 ^ 31) = 128 :: varintEncode 16777216 := by
    rw [varintEncode, dif_neg (by norm_num)]
    norm_num
  have h2 : varintEncode 16777216 = 128 :: varintEncode 131072 := by
    rw [varintEncode, dif_neg (by norm_num)]
  have h3 : varintEncode 131072 = 128 :: varintEncode 1024 := by
    rw [varintEncode, dif_neg (by norm_num)]
  have h4 : varintEncode 1024 = 128 :: varintEncode 8 := by
    rw [varintEncode, dif_neg (by norm_num)]
  have h5 : varintEncode 8 = [8] := by
    rw [varintEncode, dif_pos (by norm_num)]
  have he : varintEncode (2 ^ 31) = [0x80, 0x80, 0x80, 0x80, 0x08] := by
    rw [h1, h2, h3, h4, h5]
  refine ⟨he, ?_, ?_⟩ <;> rw [he] <;> decide

/-- C7, amended: for a varint encoding of field number 3 whose value is
below 2^31, the decoder assigns `frameSeqNo` equal to the encoded value; at
and above 2^31 the 32-bit accumulator (and its signed reinterpretation by
`BigInt(value)`) makes the stored value diverge from the wire value. -/
theorem c7_frameseq_amended (v : Nat) (hv : v < 2 ^ 31) :
    (decodeProtobuf (0x18 :: varintEncode v)).frameSeqNo = some (v : Int) := by
  have hlen1 := varintEncode_length_pos v
  have hv24 : decodeVarint (0x18 :: varintEncode v) 0 = (24, 1) := by
    rw [decodeVarint]
    rw [dvl_stop (0x18 :: varintEncode v) 0 (0x18 :: varintEncode v).length 0 0 0
      (by simp only [List.length_cons]; push_cast; omega) (by norm_num [byteI]; decide)]
    norm_num [byteI]
    decide
  have hr : decodeVarint (0x18 :: varintEncode v) ((0 : Int) + 1) = (v, (varintEncode v).length) := by
    norm_num
    exact decodeVarint_cons_encode 0x18 v hv
  rw [decodeProtobuf]
  rw [dpl_frameseq (0x18 :: varintEncode v) (0x18 :: varintEncode v).length 0 {} v
    (varintEncode v).length
    (by simp only [List.length_cons]; push_cast; omega) hv24
    (by simp only [List.length_cons]; push_cast; omega) hr]
  simp only [List.length_cons]
  rw [dpl_end (0x18 :: varintEncode v) (varintEncode v).length
    (0 + 1 + (varintEncode v).length) _
    (by simp only [List.length_cons]; push_cast; omega)]
  simp [int32_of_lt hv]

/-- Witness for C7 at the concrete value 300. -/
theorem c7_frameseq_witness :
    300 < 2 ^ 31 ∧ (decodeProtobuf (0x18 :: varintEncode 300)).frameSeqNo = some 300 :=
  ⟨by norm_num, by exact_mod_cast c7_frameseq_amended 300 (by norm_num)⟩

/-! ## Interpolation helper lemmas -/

theorem findBrackets_all_le {t : ℚ} :
    ∀ (l : List SeiFrame) (acc : Option SeiFrame),
      (∀ f ∈ l, f.timestamp ≤ t) → findBrackets l t acc = (l.getLast?.or acc, none) := by
  intro l
  induction l with
  | nil => intro acc _; simp [findBrackets]
  | cons f rest ih =>
    intro acc h
    rw [findBrackets, if_pos (h f (by simp))]
    rw [ih (some f) (fun g hg => h g (by simp [hg]))]
    cases rest with
    | nil => simp
    | cons r rs =>
      have hs : (r :: rs).getLast?.isSome := List.getLast?_isSome.mpr (by simp)
      rw [List.getLast?_cons_cons, Option.or_of_isSome hs, Option.or_of_isSome hs]

theorem findBrackets_none_le {t : ℚ} :
    ∀ (l : List SeiFrame) (acc : Option SeiFrame),
      (∀ f ∈ l, ¬ f.timestamp ≤ t) → findBrackets l t acc = (acc, l.head?) := by
  intro l
  induction l with
  | nil => intro acc _; simp [findBrackets]
  | cons f rest _ =>
    intro acc h
    rw [findBrackets, if_neg (h f (by simp))]
    simp

theorem findBrackets_snd_none {t : ℚ} :
    ∀ (l : List SeiFrame) (acc b : Option SeiFrame),
      findBrackets l t acc = (b, none) → b = l.getLast?.or acc := by
  intro l
  induction l with
  | nil =>
    intro acc b h
    rw [findBrackets] at h
    simp_all
  | cons f rest ih =>
    intro acc b h
    rw [findBrackets] at h
    by_cases hf : f.timestamp ≤ t
    · rw [if_pos hf] at h
      have := ih (some f) b h
      cases rest with
      | nil => simpa using this
      | cons r rs =>
        have hs : (r :: rs).getLast?.isSome := List.getLast?_isSome.mpr (by simp)
        rw [List.getLast?_cons_cons, Option.or_of_isSome hs]
        rw [Option.or_of_isSome hs] at this
        exact this
    · rw [if_neg hf] at h
      simp at h
  
theorem findBrackets_mem {t : ℚ} :
    ∀ (l : List SeiFrame) (acc b a : Option SeiFrame),
      findBrackets l t acc = (b, a) →
      (b = acc ∨ ∃ x ∈ l, b = some x) ∧ (a = none ∨ ∃ x ∈ l, a = some x) := by
  intro l
  induction l with
  | nil =>
    intro acc b a h
    rw [findBrackets] at h
    obtain ⟨h1, h2⟩ := Prod.mk.injEq .. ▸ h
    exact ⟨Or.inl h1.symm, Or.inl h2.symm⟩
  | cons f rest ih =>
    intro acc b a h
    rw [findBrackets] at h
    by_cases hf : f.timestamp ≤ t
    · rw [if_pos hf] at h
      obtain ⟨hb, ha⟩ := ih (some f) b a h
      constructor
      · rcases hb with hb | ⟨x, hx, hb⟩
        · exact Or.inr ⟨f, by simp, hb⟩
        · exact Or.inr ⟨x, by simp [hx], hb⟩
      · rcases ha with ha | ⟨x, hx, ha⟩
        · exact Or.inl ha
        · exact Or.inr ⟨x, by simp [hx], ha⟩
    · rw [if_neg hf] at h
      obtain ⟨h1, h2⟩ := Prod.mk.injEq .. ▸ h
      exact ⟨Or.inl h1.symm, Or.inr ⟨f, by simp, h2.symm⟩⟩

theorem findBrackets_at_knot :
    ∀ (l : List SeiFrame),
      l.Pairwise (fun a b => a.timestamp < b.timestamp) →
      ∀ (i : Nat) (hi : i < l.length) (acc : Option SeiFrame),
        findBrackets l (l[i]).timestamp acc = (some l[i], l[i + 1]?) := by
  intro l
  induction l with
  | nil => intro _ i hi; simp at hi
  | cons f rest ih =>
    intro hp i hi acc
    rw [List.pairwise_cons] at hp
    obtain ⟨hf, hp'⟩ := hp
    cases i with
    | zero =>
      simp only [List.getElem_cons_zero]
      rw [findBrackets, if_pos le_rfl]
      rw [findBrackets_none_le rest (some f)
        (fun g hg => not_le.mpr (hf g hg))]
      cases rest with
      | nil => simp
      | cons r rs => simp
    | succ i =>
      simp only [List.getElem_cons_succ]
      have hi' : i < rest.length := by simpa using hi
      rw [findBrackets, if_pos (le_of_lt (hf rest[i] (by simp)))]
      rw [ih hp' i hi' (some f)]
      simp

theorem le_getLast_of_pairwise :
    ∀ (l : List SeiFrame) (la : SeiFrame),
      l.Pairwise (fun a b => a.timestamp < b.timestamp) →
      l.getLast? = some la → ∀ f ∈ l, f.timestamp ≤ la.timestamp := by
  intro l
  induction l with
  | nil => intro la _ h; simp at h
  | cons x rest ih =>
    intro la hp hla f hf
    rw [List.pairwise_cons] at hp
    obtain ⟨hx, hp'⟩ := hp
    cases rest with
    | nil =>
      simp at hla hf
      subst hla hf
      exact le_rfl
    | cons r rs =>
      rw [List.getLast?_cons_cons] at hla
      rcases List.mem_cons.mp hf with hf2 | hf2
      · subst hf2
        exact le_of_lt (hx la (List.mem_of_getLast?_eq_some hla))
      · exact ih la hp' hla f hf2

theorem lerp_knot (t : ℚ) (a b : Option ℚ) (x : ℚ) (ht : t = 0) (ha : a = some x) :
    lerp t a b = some x := by
  subst ht ha
  cases b <;> simp [lerp]

theorem discreteEq_refl (m : SeiMetadata) : discreteEq m m :=
  ⟨rfl, rfl, rfl, rfl, rfl, rfl, rfl⟩

theorem presentAgree_refl (m : SeiMetadata) : presentAgree m m :=
  ⟨fun _ h => h, fun _ h => h, fun _ h => h, fun _ h => h, fun _ h => h,
   fun _ h => h, fun _ h => h, fun _ h => h, fun _ h => h⟩

/-! ## C8 : interpolation edge cases -/

/-- C8 (confirmed): `interpolateSeiData` returns `none` iff the series is
empty; a one-frame series returns that frame's record; a query before the
first timestamp returns the first record verbatim; a query at or past the
last timestamp (for a strictly increasing series) returns the last record
verbatim; and equal bracketing timestamps return the before frame's
record. -/
theorem c8_interpolate_edges (frames : List SeiFrame) (t : ℚ) :
    (interpolateSeiData frames t = none ↔ frames = []) ∧
    (∀ f, frames = [f] → interpolateSeiData frames t = some f.metadata) ∧
    (∀ f rest, frames = f :: rest → t < f.timestamp →
      interpolateSeiData frames t = some f.metadata) ∧
    (frames.Pairwise (fun a b => a.timestamp < b.timestamp) →
      ∀ la, frames.getLast? = some la → la.timestamp ≤ t →
        interpolateSeiData frames t = some la.metadata) ∧
    (∀ bf af, findBrackets frames t none = (some bf, some af) →
      bf.timestamp = af.timestamp → interpolateSeiData frames t = some bf.metadata) := by
  refine ⟨?_, ?_, ?_, ?_, ?_⟩
  · cases frames with
    | nil => simp [interpolateSeiData]
    | cons f0 rest0 =>
      cases rest0 with
      | nil => simp [interpolateSeiData]
      | cons f1 rest =>
        rcases hfb : findBrackets (f0 :: f1 :: rest) t none with ⟨b, a⟩
        simp only [interpolateSeiData, hfb]
        rcases b with _ | bf
        · simp
        · rcases a with _ | af
          · simp
          · by_cases hd : af.timestamp - bf.timestamp = 0 <;> simp [hd]
  · intro f hf
    subst hf
    simp [interpolateSeiData]
  · intro f rest hf ht
    subst hf
    cases rest with
    | nil => simp [interpolateSeiData]
    | cons f1 rs =>
      have hfb : findBrackets (f :: f1 :: rs) t none = (none, some f) := by
        rw [findBrackets, if_neg (not_le.mpr ht)]
      simp [interpolateSeiData, hfb]
  · intro hp la hla hle
    have hall : ∀ f ∈ frames, f.timestamp ≤ t :=
      fun f hf => le_trans (le_getLast_of_pairwise frames la hp hla f hf) hle
    cases frames with
    | nil => simp at hla
    | cons f0 rest0 =>
      cases rest0 with
      | nil =>
        simp at hla
        subst hla
        simp [interpolateSeiData]
      | cons f1 rest =>
        have hfb := findBrackets_all_le (f0 :: f1 :: rest) none hall
        rw [hla] at hfb
        simp only [Option.or_some] at hfb
        simp only [interpolateSeiData, hfb]
        rw [List.getLastD_eq_getLast?, hla]
        rfl
  · intro bf af hfb heq
    cases frames with
    | nil => simp [findBrackets] at hfb
    | cons f0 rest0 =>
      cases rest0 with
      | nil =>
        rw [findBrackets] at hfb
        split_ifs at hfb with h0
        · simp [findBrackets] at hfb
        · simp at hfb
      | cons f1 rest =>
        simp only [interpolateSeiData, hfb]
        rw [if_pos (by rw [heq]; ring)]

/-- Witness for C8 at a concrete two-frame series and a query past the last
timestamp. -/
theorem c8_interpolate_witness :
    interpolateSeiData
      [⟨0, 1/36, { version := some 1 }⟩, ⟨1, 2/36, { version := some 2 }⟩] 10 =
      some { version := some 2 } :=
  (c8_interpolate_edges
      [⟨0, 1/36, { version := some 1 }⟩, ⟨1, 2/36, { version := some 2 }⟩] 10).2.2.2.1
    (by norm_num [List.pairwise_cons]) ⟨1, 2/36, { version := some 2 }⟩ rfl (by norm_num)

/-! ## C9 : discrete fields are never interpolated -/

/-- C9 (confirmed): for every non-empty series and query time the snapshot
exists, its discrete fields (version, gear, frame-sequence, both blinkers,
brake, autopilot) all come from one real frame of the series, and whenever
the bracket search finds a before frame they equal that frame's discrete
fields. -/
theorem c9_discrete_fields (frames : List SeiFrame) (t : ℚ) (h : frames ≠ []) :
    ∃ m, interpolateSeiData frames t = some m ∧
      (∃ f ∈ frames, discreteEq m f.metadata) ∧
      (∀ bf a, findBrackets frames t none = (some bf, a) → discreteEq m bf.metadata) := by
  cases frames with
  | nil => exact absurd rfl h
  | cons f0 rest0 =>
    cases rest0 with
    | nil =>
      refine ⟨f0.metadata, by simp [interpolateSeiData], ⟨f0, by simp, discreteEq_refl _⟩, ?_⟩
      intro bf a hfb
      rw [findBrackets] at hfb
      split_ifs at hfb with h0
      · rw [findBrackets] at hfb
        simp at hfb
        rw [← hfb.1]
        exact discreteEq_refl _
      · simp at hfb
    | cons f1 rest =>
      rcases hfb : findBrackets (f0 :: f1 :: rest) t none with ⟨b, a⟩
      rcases b with _ | bf
      · refine ⟨f0.metadata, by simp [interpolateSeiData, hfb], ⟨f0, by simp, discreteEq_refl _⟩, ?_⟩
        intro bf a' hfb'
        simp at hfb'
      · have hbf_mem : bf ∈ f0 :: f1 :: rest := by
          obtain ⟨hb, _⟩ := findBrackets_mem (f0 :: f1 :: rest) none (some bf) a hfb
          rcases hb with hb | ⟨x, hx, hb⟩
          · simp at hb
          · simp at hb
            rwa [hb]
        rcases a with _ | af
        · have hlast := findBrackets_snd_none (f0 :: f1 :: rest) none (some bf) hfb
          simp only [Option.or_none] at hlast
          refine ⟨bf.metadata, ?_, ⟨bf, hbf_mem, discreteEq_refl _⟩, ?_⟩
          · simp only [interpolateSeiData, hfb]
            rw [List.getLastD_eq_getLast?, ← hlast]
            rfl
          · intro bf' a' hfb'
            simp at hfb'
            rw [← hfb'.1]
            exact discreteEq_refl _
        · by_cases hd : af.timestamp - bf.timestamp = 0
          · refine ⟨bf.metadata, ?_, ⟨bf, hbf_mem, discreteEq_refl _⟩, ?_⟩
            · simp only [interpolateSeiData, hfb]
              rw [if_pos hd]
            · intro bf' a' hfb'
              simp at hfb'
              rw [← hfb'.1]
              exact discreteEq_refl _
          · obtain ⟨m, hm, hdq⟩ : ∃ m, interpolateSeiData (f0 :: f1 :: rest) t = some m ∧
                discreteEq m bf.metadata := by
              simp only [interpolateSeiData, hfb]
              rw [if_neg hd]
              exact ⟨_, rfl, by simp [discreteEq]⟩
            refine ⟨m, hm, ⟨bf, hbf_mem, hdq⟩, ?_⟩
            intro bf' a' hfb'
            simp at hfb'
            rw [← hfb'.1]
            exact hdq

/-- Witness for C9 at a concrete two-frame series. -/
theorem c9_discrete_fields_witness :
    ∃ m, interpolateSeiData
        [⟨0, 1/36, { version := some 1 }⟩, ⟨1, 2/36, { version := some 2 }⟩] (3/72) =
        some m ∧
      (∃ f ∈ [(⟨0, 1/36, { version := some 1 }⟩ : SeiFrame),
              ⟨1, 2/36, { version := some 2 }⟩], discreteEq m f.metadata) ∧
      (∀ bf a, findBrackets
          [(⟨0, 1/36, { version := some 1 }⟩ : SeiFrame),
           ⟨1, 2/36, { version := some 2 }⟩] (3/72) none = (some bf, a) →
        discreteEq m bf.metadata) :=
  c9_discrete_fields
    [⟨0, 1/36, { version := some 1 }⟩, ⟨1, 2/36, { version := some 2 }⟩] (3/72)
    (by simp)

/-! ## C3 : interpolation at an exact knot -/

/-- C3, counterexample: at `t = frame[0].timestamp`, a continuous field that
is absent in frame 0 but present in frame 1 is filled from frame 1
(`lerp`'s `a ?? b` fallback), so the snapshot does not equal frame 0's
record field-for-field. -/
theorem c3_knot_cex :
    interpolateSeiData
        [⟨0, 1/36, { version := some 1 }⟩,
         ⟨1, 2/36, { version := some 1, vehicleSpeedMps := some 20 }⟩] (1/36) ≠
      some ({ version := some 1 } : SeiMetadata) ∧
    (interpolateSeiData
        [⟨0, 1/36, { version := some 1 }⟩,
         ⟨1, 2/36, { version := some 1, vehicleSpeedMps := some 20 }⟩] (1/36)).map
      SeiMetadata.vehicleSpeedMps = some (some 20) := by
  have hfb : findBrackets
      [(⟨0, 1/36, { version := some 1 }⟩ : SeiFrame),
       ⟨1, 2/36, { version := some 1, vehicleSpeedMps := some 20 }⟩] (1/36) none =
      (some ⟨0, 1/36, { version := some 1 }⟩,
       some ⟨1, 2/36, { version := some 1, vehicleSpeedMps := some 20 }⟩) := by
    rw [findBrackets, if_pos (by norm_num), findBrackets, if_neg (by norm_num)]
  have hval : interpolateSeiData
      [(⟨0, 1/36, { version := some 1 }⟩ : SeiFrame),
       ⟨1, 2/36, { version := some 1, vehicleSpeedMps := some 20 }⟩] (1/36) =
      some { version := some 1, vehicleSpeedMps := some 20 } := by
    simp only [interpolateSeiData, hfb]
    rw [if_neg (by norm_num)]
    simp [lerp]
  refine ⟨?_, ?_⟩
  · rw [hval]
    simp
  · rw [hval]
    rfl

/-- C3, amended: at `t = frame[i].timestamp` in a strictly increasing
series, the snapshot exists, its discrete fields equal frame `i`'s, and
every continuous field that is present in frame `i` keeps exactly frame
`i`'s value (no drift at exact knots); a continuous field absent in frame
`i` may however be filled from the bracketing after frame. -/
theorem c3_knot_amended (frames : List SeiFrame)
    (hp : frames.Pairwise (fun a b => a.timestamp < b.timestamp))
    (i : Nat) (hi : i < frames.length) :
    ∃ m, interpolateSeiData frames (frames[i]).timestamp = some m ∧
      discreteEq m (frames[i]).metadata ∧ presentAgree m (frames[i]).metadata := by
  cases frames with
  | nil => simp at hi
  | cons f0 rest0 =>
    cases rest0 with
    | nil =>
      have hi0 : i = 0 := by
        simp at hi
        omega
      subst hi0
      exact ⟨f0.metadata, by simp [interpolateSeiData], discreteEq_refl _, presentAgree_refl _⟩
    | cons f1 rest =>
      have hfb := findBrackets_at_knot (f0 :: f1 :: rest) hp i hi none
      rcases hg : (f0 :: f1 :: rest)[i + 1]? with _ | af
      · rw [hg] at hfb
        have hlast : (f0 :: f1 :: rest).getLast? = some ((f0 :: f1 :: rest)[i]) := by
          rw [List.getLast?_eq_get?]
          have hlen : (f0 :: f1 :: rest).length ≤ i + 1 := by
            by_contra hc
            push_neg at hc
            simp [List.getElem?_eq_getElem hc] at hg
          have hieq : (f0 :: f1 :: rest).length - 1 = i := by omega
          rw [hieq, List.get?_eq_get hi]
          simp
        simp only [interpolateSeiData, hfb]
        rw [List.getLastD_eq_getLast?, hlast]
        exact ⟨_, rfl, discreteEq_refl _, presentAgree_refl _⟩
      · rw [hg] at hfb
        have hi1 : i + 1 < (f0 :: f1 :: rest).length := by
          by_contra hc
          push_neg at hc
          rw [List.getElem?_eq_none hc] at hg
          exact absurd hg (by simp)
        have haf : af = (f0 :: f1 :: rest)[i + 1] := by
          rw [List.getElem?_eq_getElem hi1] at hg
          simpa using hg.symm
        have hlt : ((f0 :: f1 :: rest)[i]).timestamp < af.timestamp := by
          rw [haf]
          exact (List.pairwise_iff_getElem.mp hp) i (i + 1) hi hi1 (by omega)
        have hd : ¬ (af.timestamp - ((f0 :: f1 :: rest)[i]).timestamp = 0) := by
          intro hc
          rw [sub_eq_zero] at hc
          rw [hc] at hlt
          exact lt_irrefl _ hlt
        have ht0 : (((f0 :: f1 :: rest)[i]).timestamp - ((f0 :: f1 :: rest)[i]).timestamp) /
            (af.timestamp - ((f0 :: f1 :: rest)[i]).timestamp) = 0 := by
          rw [sub_self, zero_div]
        simp only [interpolateSeiData, hfb]
        rw [if_neg hd]
        refine ⟨_, rfl, ⟨rfl, rfl, rfl, rfl, rfl, rfl, rfl⟩, ?_⟩
        refine ⟨?_, ?_, ?_, ?_, ?_, ?_, ?_, ?_, ?_⟩ <;>
          exact fun x hx => lerp_knot _ _ _ _ ht0 hx

/-- Witness for C3 at a concrete two-frame series with a present continuous
field. -/
theorem c3_knot_witness :
    ∃ m, interpolateSeiData
        [⟨0, 1/36, { version := some 1, vehicleSpeedMps := some 5 }⟩,
         ⟨1, 2/36, { version := some 1, vehicleSpeedMps := some 7 }⟩]
        (([⟨0, 1/36, { version := some 1, vehicleSpeedMps := some 5 }⟩,
           ⟨1, 2/36, { version := some 1, vehicleSpeedMps := some 7 }⟩] :
            List SeiFrame)[0]).timestamp = some m ∧
      discreteEq m (([⟨0, 1/36, { version := some 1, vehicleSpeedMps := some 5 }⟩,
           ⟨1, 2/36, { version := some 1, vehicleSpeedMps := some 7 }⟩] :
            List SeiFrame)[0]).metadata ∧
      presentAgree m (([⟨0, 1/36, { version := some 1, vehicleSpeedMps := some 5 }⟩,
           ⟨1, 2/36, { version := some 1, vehicleSpeedMps := some 7 }⟩] :
            List SeiFrame)[0]).metadata :=
  c3_knot_amended
    [⟨0, 1/36, { version := some 1, vehicleSpeedMps := some 5 }⟩,
     ⟨1, 2/36, { version := some 1, vehicleSpeedMps := some 7 }⟩]
    (by norm_num [List.pairwise_cons]) 0 (by norm_num)

/-! ## C10 : CSV rendering of absent fields -/

/-- C10 (confirmed): in a CSV row, an absent gear state renders as "P" and
an absent autopilot state as "Off" (the `?? default` enum falls back to
Park / None before mnemonic rendering), while absent numeric fields and
absent boolean flags render as the empty string. -/
theorem c10_csv_absent_fields (f : SeiFrame) :
    (f.metadata.gearState = none → (csvRow f).get? 3 = some "P") ∧
    (f.metadata.autopilotState = none → (csvRow f).get? 10 = some "Off") ∧
    (f.metadata.version = none → (csvRow f).get? 2 = some "") ∧
    (f.metadata.vehicleSpeedMps = none → (csvRow f).get? 4 = some "") ∧
    (f.metadata.latitudeDeg = none → (csvRow f).get? 11 = some "") ∧
    (f.metadata.blinkerOnLeft = none → (csvRow f).get? 7 = some "") ∧
    (f.metadata.blinkerOnRight = none → (csvRow f).get? 8 = some "") ∧
    (f.metadata.brakeApplied = none → (csvRow f).get? 9 = some "") := by
  refine ⟨?_, ?_, ?_, ?_, ?_, ?_, ?_, ?_⟩ <;> intro h <;>
    simp [csvRow, h, optIntStr, optFixedStr, optBoolStr, gearStateToString,
      autopilotStateToString]

/-- Witness for C10 at a frame with all optional fields absent. -/
theorem c10_csv_absent_fields_witness :
    (csvRow ⟨0, 0, {}⟩).get? 3 = some "P" ∧ (csvRow ⟨0, 0, {}⟩).get? 10 = some "Off" ∧
      (csvRow ⟨0, 0, {}⟩).get? 2 = some "" ∧ (csvRow ⟨0, 0, {}⟩).get? 4 = some "" ∧
      (csvRow ⟨0, 0, {}⟩).get? 11 = some "" ∧ (csvRow ⟨0, 0, {}⟩).get? 7 = some "" ∧
      (csvRow ⟨0, 0, {}⟩).get? 8 = some "" ∧ (csvRow ⟨0, 0, {}⟩).get? 9 = some "" := by
  obtain ⟨h1, h2, h3, h4, h5, h6, h7, h8⟩ := c10_csv_absent_fields ⟨0, 0, {}⟩
  exact ⟨h1 rfl, h2 rfl, h3 rfl, h4 rfl, h5 rfl, h6 rfl, h7 rfl, h8 rfl⟩

/-! ## C5 : locating the media-data box -/

theorem MdatSpec_le {l : List Nat} {p q off sz : Nat} (h : MdatSpec l p q off sz) :
    p ≤ q := by
  induction h with
  | mdat_normal => exact le_rfl
  | mdat_ext => exact le_rfl
  | mdat_final => exact le_rfl
  | skip_normal p sz q off csz hr h8 h1 hle hm hnext ih => omega
  | skip_ext p sz q off csz hr hext h16 hle hm hnext ih => omega

theorem MdatSpec_bound {l : List Nat} {p q off sz : Nat} (h : MdatSpec l p q off sz) :
    off + sz ≤ l.length := by
  induction h with
  | mdat_normal p sz off csz hr h8 hle hm hoff hcsz => omega
  | mdat_ext p sz off csz hr hext h16 hle hm hoff hcsz => omega
  | mdat_final p off csz hr hle hm hoff hcsz => omega
  | skip_normal _ _ _ _ _ _ _ _ _ _ _ ih => exact ih
  | skip_ext _ _ _ _ _ _ _ _ _ _ _ ih => exact ih

theorem findMdatLoop_spec {l : List Nat} {p q off sz : Nat}
    (h : MdatSpec l p q off sz) :
    ∀ fuel : Nat, q + 8 < l.length → l.length + 1 ≤ fuel + p →
      findMdatLoop l fuel p = some (off, (sz : Int)) := by
  induction h with
  | mdat_normal p sz off csz hr h8 hle hm hoff hcsz =>
    intro fuel hq hfuel
    rcases fuel with _ | f
    · omega
    rw [findMdatLoop]
    rw [if_pos (by omega : p < l.length - 8)]
    simp only [hr]
    rw [if_neg (by omega : ¬ sz = 1), if_neg (by omega : ¬ sz = 0), if_pos hm]
    have hc : (sz : Int) - 8 = ((csz : Nat) : Int) := by omega
    rw [hoff, hc]
  | mdat_ext p sz off csz hr hext h16 hle hm hoff hcsz =>
    intro fuel hq hfuel
    rcases fuel with _ | f
    · omega
    rw [findMdatLoop]
    rw [if_pos (by omega : p < l.length - 8)]
    simp only [hr]
    rw [if_true, if_neg (by omega : ¬ l.length < p + 16), hext, if_pos hm]
    have hc : (sz : Int) - 16 = ((csz : Nat) : Int) := by omega
    rw [hoff, hc]
  | mdat_final p off csz hr hle hm hoff hcsz =>
    intro fuel hq hfuel
    rcases fuel with _ | f
    · omega
    rw [findMdatLoop]
    rw [if_pos (by omega : p < l.length - 8)]
    simp only [hr]
    rw [if_neg (by omega : ¬ (0 : Nat) = 1), if_pos hm, if_true]
    have hc : ((l.length - p : Nat) : Int) - 8 = ((csz : Nat) : Int) := by omega
    rw [hoff, hc]
  | skip_normal p sz q off csz hr h8 h1 hle hm hnext ih =>
    intro fuel hq hfuel
    have hpq : p + sz ≤ q := MdatSpec_le hnext
    rcases fuel with _ | f
    · omega
    rw [findMdatLoop]
    rw [if_pos (by omega : p < l.length - 8)]
    simp only [hr]
    rw [if_neg h1, if_neg (by omega : ¬ sz = 0), if_neg (by simp [hm])]
    rw [if_neg (by omega : ¬ sz < 8)]
    exact ih f hq (by omega)
  | skip_ext p sz q off csz hr hext h16 hle hm hnext ih =>
    intro fuel hq hfuel
    have hpq : p + sz ≤ q := MdatSpec_le hnext
    rcases fuel with _ | f
    · omega
    rw [findMdatLoop]
    rw [if_pos (by omega : p < l.length - 8)]
    simp only [hr]
    rw [if_true, if_neg (by omega : ¬ l.length < p + 16), hext, if_neg (by simp [hm])]
    rw [if_neg (by omega : ¬ sz < 16)]
    exact ih f hq (by omega)

/-- C5, counterexample: the buffer consisting of a single valid 8-byte
header-only `mdat` box (content offset 8, content size 0) is a valid box
sequence containing a media-data box, yet `findMdat` returns `none`: the
scan loop's `pos < length - 8` bound never examines a box that starts at
the final 8 bytes. -/
theorem c5_mdat_cex :
    MdatSpec [0, 0, 0, 8, 0x6d, 0x64, 0x61, 0x74] 0 0 8 0 ∧
      findMdat [0, 0, 0, 8, 0x6d, 0x64, 0x61, 0x74] = none ∧
      findMdat [0, 0, 0, 8, 0x6d, 0x64, 0x61, 0x74] ≠ some (8, 0) := by
  refine ⟨MdatSpec.mdat_normal 0 8 8 0 (by decide) (by norm_num) (by norm_num)
    (by decide) (by norm_num) (by norm_num), by decide, by decide⟩

/-- C5, amended: for every valid length-prefixed box sequence whose first
media-data box starts at a position `q` with `q + 8 < buffer length` (that
is, the `mdat` is not an empty header-only box occupying the final 8
bytes, which the loop bound `pos < length - 8` never examines), `findMdat`
returns that box's content offset and content size, and
`offset + size ≤ buffer length`. -/
theorem c5_mdat_amended (l : List Nat) (q off sz : Nat)
    (h : MdatSpec l 0 q off sz) (hq : q + 8 < l.length) :
    findMdat l = some (off, (sz : Int)) ∧ off + sz ≤ l.length :=
  ⟨by rw [findMdat]; exact findMdatLoop_spec h (l.length + 1) hq (by omega),
   MdatSpec_bound h⟩

/-- Witness for C5: a `free` box followed by an `mdat` box with 4 content
bytes. -/
theorem c5_mdat_witness :
    findMdat [0, 0, 0, 8, 0x66, 0x72, 0x65, 0x65,
              0, 0, 0, 12, 0x6d, 0x64, 0x61, 0x74, 1, 2, 3, 4] = some (16, (4 : Int)) ∧
      16 + 4 ≤ (20 : Nat) := by
  have h := c5_mdat_amended
    [0, 0, 0, 8, 0x66, 0x72, 0x65, 0x65,
     0, 0, 0, 12, 0x6d, 0x64, 0x61, 0x74, 1, 2, 3, 4] 8 16 4
    (MdatSpec.skip_normal 0 8 8 16 4 (by decide) (by norm_num) (by norm_num)
      (by norm_num) (by decide)
      (MdatSpec.mdat_normal 8 12 16 4 (by decide) (by norm_num) (by norm_num)
        (by decide) (by norm_num) (by norm_num)))
    (by norm_num)
  exact ⟨h.1, by norm_num⟩

/-! ## C6 : frame series invariants -/

theorem framesLoop_nil (n : Nat) : framesLoop n [] = [] := rfl

theorem framesLoop_cons (n : Nat) (nal : List Nat) (rest : List (List Nat)) :
    framesLoop n (nal :: rest) =
      match extractProtoPayload nal with
      | none => framesLoop n rest
      | some payload =>
        let metadata := decodeProtobuf payload
        if metadata.version.isSome then
          ⟨n, ((n : ℚ) + 1) / 36, metadata⟩ :: framesLoop (n + 1) rest
        else framesLoop n rest := rfl

theorem framesLoop_spec :
    ∀ (nals : List (List Nat)) (n i : Nat) (hi : i < (framesLoop n nals).length),
      ((framesLoop n nals)[i]).frameNumber = n + i ∧
      ((framesLoop n nals)[i]).timestamp = (((n + i : Nat) : ℚ) + 1) / 36 ∧
      ((framesLoop n nals)[i]).metadata.version.isSome = true := by
  intro nals
  induction nals with
  | nil =>
    intro n i hi
    simp [framesLoop] at hi
  | cons nal rest ih =>
    intro n i hi
    rcases hp : extractProtoPayload nal with _ | payload
    · simp only [framesLoop_cons, hp] at hi ⊢
      exact ih n i hi
    · by_cases hv : (decodeProtobuf payload).version.isSome
      · simp only [framesLoop_cons, hp] at hi ⊢
        simp only [hv, if_true] at hi ⊢
        cases i with
        | zero =>
          refine ⟨by simp, by simp, by simpa using hv⟩
        | succ i =>
          simp only [List.getElem_cons_succ]
          have hi' : i < (framesLoop (n + 1) rest).length := by
            simpa using hi
          obtain ⟨h1, h2, h3⟩ := ih (n + 1) i hi'
          refine ⟨by omega, ?_, h3⟩
          rw [h2]
          congr 2
          push_cast
          ring
      · simp only [framesLoop_cons, hp] at hi ⊢
        simp only [Bool.not_eq_true] at hv
        simp only [hv, Bool.false_eq_true, if_false] at hi ⊢
        exact ih n i hi

/-- C6 (confirmed): for every buffer on which extraction returns a series,
frame indices are contiguous from 0 in encounter order, each timestamp is
`(index + 1) / 36`, only records with a defined version appear, and
timestamps are strictly increasing. -/
theorem c6_series_invariants (data : List Nat) (frames : List SeiFrame)
    (h : extractSeiFromFile data = .ok frames) (i j : Nat)
    (hi : i < frames.length) (hj : j < frames.length) :
    (frames[i]).frameNumber = i ∧
    (frames[i]).timestamp = ((i : ℚ) + 1) / 36 ∧
    (frames[i]).metadata.version.isSome = true ∧
    (i < j → (frames[i]).timestamp < (frames[j]).timestamp) := by
  rw [extractSeiFromFile] at h
  rcases hm : findMdat data with _ | ⟨off, sz⟩
  · rw [hm] at h
    simp only [Except.ok.injEq] at h
    subst h
    simp at hi
  · rw [hm] at h
    simp only at h
    rcases hn : iterNals data off sz with e | nals
    · rw [hn] at h
      simp at h
    · rw [hn] at h
      simp only [Except.ok.injEq] at h
      subst h
      obtain ⟨h1, h2, h3⟩ := framesLoop_spec nals 0 i hi
      obtain ⟨g1, g2, g3⟩ := framesLoop_spec nals 0 j hj
      refine ⟨by simpa using h1, by rw [h2]; push_cast; ring_nf, h3, ?_⟩
      intro hij
      rw [h2, g2]
      rw [div_lt_div_iff_of_pos_right (by norm_num : (0 : ℚ) < 36)]
      push_cast
      have : (i : ℚ) < j := by exact_mod_cast hij
      linarith

/-- Witness for C6 at a concrete 30-byte buffer holding an `mdat` with two
qualifying SEI NAL units whose payloads decode version 1. -/
theorem c6_series_invariants_witness :
    extractSeiFromFile
        [0, 0, 0, 30, 0x6d, 0x64, 0x61, 0x74,
         0, 0, 0, 7, 6, 5, 0xAA, 0x69, 8, 1, 0x80,
         0, 0, 0, 7, 6, 5, 0xAA, 0x69, 8, 1, 0x80] =
      .ok [⟨0, (((0 : Nat) : ℚ) + 1) / 36, { version := some 1 }⟩,
           ⟨1, (((1 : Nat) : ℚ) + 1) / 36, { version := some 1 }⟩] ∧
    ∃ h0 : 0 < ([⟨0, (((0 : Nat) : ℚ) + 1) / 36, { version := some 1 }⟩,
           ⟨1, (((1 : Nat) : ℚ) + 1) / 36, { version := some 1 }⟩] : List SeiFrame).length,
    ∃ h1 : 1 < ([⟨0, (((0 : Nat) : ℚ) + 1) / 36, { version := some 1 }⟩,
           ⟨1, (((1 : Nat) : ℚ) + 1) / 36, { version := some 1 }⟩] : List SeiFrame).length,
      (([⟨0, (((0 : Nat) : ℚ) + 1) / 36, { version := some 1 }⟩,
           ⟨1, (((1 : Nat) : ℚ) + 1) / 36, { version := some 1 }⟩] :
          List SeiFrame).get ⟨0, h0⟩).frameNumber = 0 ∧
      (([⟨0, (((0 : Nat) : ℚ) + 1) / 36, { version := some 1 }⟩,
           ⟨1, (((1 : Nat) : ℚ) + 1) / 36, { version := some 1 }⟩] :
          List SeiFrame).get ⟨0, h0⟩).timestamp <
        (([⟨0, (((0 : Nat) : ℚ) + 1) / 36, { version := some 1 }⟩,
           ⟨1, (((1 : Nat) : ℚ) + 1) / 36, { version := some 1 }⟩] :
          List SeiFrame).get ⟨1, h1⟩).timestamp := by
  have hex : extractSeiFromFile
      [0, 0, 0, 30, 0x6d, 0x64, 0x61, 0x74,
       0, 0, 0, 7, 6, 5, 0xAA, 0x69, 8, 1, 0x80,
       0, 0, 0, 7, 6, 5, 0xAA, 0x69, 8, 1, 0x80] =
      .ok [⟨0, (((0 : Nat) : ℚ) + 1) / 36, { version := some 1 }⟩,
           ⟨1, (((1 : Nat) : ℚ) + 1) / 36, { version := some 1 }⟩] := rfl
  have h0 : (0 : Nat) < 2 := by norm_num
  have h1 : (1 : Nat) < 2 := by norm_num
  have hc := c6_series_invariants _ _ hex 0 1 h0 h1
  exact ⟨hex, h0, h1, hc.1, hc.2.2.2 (by norm_num)⟩

/-! ## C4 : extraction on malformed input -/

/-- C4 (code bug): on a 12-byte buffer whose `mdat` box declares size 255,
the NAL scan's region end (263) exceeds the buffer, and the source's
`view.getUint32(12)` on a 12-byte `DataView` throws a `RangeError`
(modelled as `Except.error`); extraction does not return an empty or
shorter series as the claim requires. -/
theorem c4_extraction_throws :
    extractSeiFromFile [0, 0, 0, 255, 0x6d, 0x64, 0x61, 0x74, 0, 0, 0, 0] =
      .error () := rfl
